import Mathlib

/-!
Shallow embedding of the LexiBoost question preloader
(src/question_preloader.py) and the parts of the app it relies on.

Python dicts are modelled as insertion-ordered association lists
(update-in-place on existing keys, append for new keys, deletion of the
first matching key), matching CPython dict semantics.  Timestamps are
modelled as integers; the background thread interleavings are modelled
as explicit operation sequences applied to the manager state.
-/

namespace LexiBoost

/-! ### Insertion-ordered dictionaries (CPython dict semantics) -/

def dictFind {κ α : Type} [DecidableEq κ] (k : κ) : List (κ × α) → Option α
  | [] => none
  | (k', v) :: rest => if k' = k then some v else dictFind k rest

def dictInsert {κ α : Type} [DecidableEq κ] (k : κ) (v : α) : List (κ × α) → List (κ × α)
  | [] => [(k, v)]
  | (k', v') :: rest => if k' = k then (k, v) :: rest else (k', v') :: dictInsert k v rest

def dictErase {κ α : Type} [DecidableEq κ] (k : κ) : List (κ × α) → List (κ × α)
  | [] => []
  | (k', v') :: rest => if k' = k then rest else (k', v') :: dictErase k rest

/-! ### Data model -/

/-- A bilingual string pair, as used for choices and examples. -/
structure Pair where
  en : String
  zh : String
deriving DecidableEq

/-- The PreloadedQuestion dataclass of question_preloader.py. -/
structure PreloadedQuestion where
  word_id : Nat
  word_txt : String
  level : String
  sentence : String
  choices_i18n : List Pair
  correct_answer_i18n : Pair
  target_word : String
  explanation_en : String
  explanation_zh : String
  created_at : Int
deriving DecidableEq

/-- The explanation payload returned by the definition service. -/
structure Explanation where
  definition_en : String
  definition_zh : String
  distractors_en : List String
  distractors_zh : List String
  examples : List Pair
deriving DecidableEq

/-- The mutable state of the QuestionPreloader class: the four per-session
registries, the shared explanation cache, and the configuration fields. -/
structure QuestionPreloader where
  question_queues : List (Nat × List PreloadedQuestion)
  session_locks : List Nat
  preload_threads : List (Nat × Bool)
  stop_events : List (Nat × Bool)
  explanation_cache : List ((String × String) × Explanation)
  queue_size : Nat
  preload_ahead : Nat
  question_ttl : Int

/-- Fresh manager state with the given configuration
(defaults in the source: queue_size 5, preload_ahead 3, question_ttl 300). -/
def initState (cap ahead : Nat) (ttl : Int) : QuestionPreloader :=
  { question_queues := [], session_locks := [], preload_threads := [],
    stop_events := [], explanation_cache := [],
    queue_size := cap, preload_ahead := ahead, question_ttl := ttl }

/-! ### Manager operations -/

/-- start_session_preloader: no-op when a worker is already registered,
otherwise allocates queue, lock, stop event and a (started, alive) thread. -/
def start_session_preloader (s : QuestionPreloader) (session_id : Nat) : QuestionPreloader :=
  if (dictFind session_id s.preload_threads).isSome then s
  else
    { s with
      question_queues := dictInsert session_id [] s.question_queues,
      session_locks := s.session_locks ++ [session_id],
      stop_events := dictInsert session_id false s.stop_events,
      preload_threads := dictInsert session_id true s.preload_threads }

/-- stop_session_preloader: no-op on unknown ids, otherwise sets the stop
event, joins the worker, and pops the session from all four registries.
The net bookkeeping effect is the removal from all four registries. -/
def stop_session_preloader (s : QuestionPreloader) (session_id : Nat) : QuestionPreloader :=
  if (dictFind session_id s.preload_threads).isNone then s
  else
    { s with
      question_queues := dictErase session_id s.question_queues,
      session_locks := s.session_locks.erase session_id,
      preload_threads := dictErase session_id s.preload_threads,
      stop_events := dictErase session_id s.stop_events }

/-- The staleness test of get_next_question:
(current_time - q.created_at) > self.question_ttl. -/
def question_is_expired (ttl : Int) (now : Int) (q : PreloadedQuestion) : Bool :=
  decide (ttl < now - q.created_at)

/-- get_next_question: unknown session yields None; otherwise expired
entries are popped from the head, then the head is popped and returned
when present.  Returns the result together with the updated state. -/
def get_next_question (s : QuestionPreloader) (session_id : Nat) (now : Int) :
    Option PreloadedQuestion × QuestionPreloader :=
  match dictFind session_id s.question_queues with
  | none => (none, s)
  | some queue =>
    match queue.dropWhile (question_is_expired s.question_ttl now) with
    | [] => (none, { s with question_queues := dictInsert session_id [] s.question_queues })
    | q :: rest =>
      (some q, { s with question_queues := dictInsert session_id rest s.question_queues })

/-- The dictionary returned by get_queue_status.  The unknown-session
branch of the source returns a dict without the max_queue_size key, hence
the Option type of that field. -/
structure QueueStatus where
  queue_size : Nat
  thread_alive : Bool
  max_queue_size : Option Nat
deriving DecidableEq

/-- get_queue_status of question_preloader.py. -/
def get_queue_status (s : QuestionPreloader) (session_id : Nat) : QueueStatus :=
  match dictFind session_id s.question_queues with
  | none => { queue_size := 0, thread_alive := false, max_queue_size := none }
  | some queue =>
    { queue_size := queue.length,
      thread_alive := (dictFind session_id s.preload_threads).getD false,
      max_queue_size := some s.queue_size }

/-- Cache keys are (word lowercased, level). -/
def cache_key (word level : String) : String × String := (word.toLower, level)

/-- get_cached_explanation of question_preloader.py. -/
def get_cached_explanation (s : QuestionPreloader) (word level : String) : Option Explanation :=
  dictFind (cache_key word level) s.explanation_cache

/-- The cache update performed by cache_explanation: dict insertion
followed, when the size exceeds 1000, by deletion of the first key in
insertion order (next(iter(dict))). -/
def cache_explanation_map (cache : List ((String × String) × Explanation))
    (word level : String) (e : Explanation) : List ((String × String) × Explanation) :=
  let c := dictInsert (cache_key word level) e cache
  if 1000 < c.length then c.tail else c

/-- cache_explanation of question_preloader.py lifted to the manager state. -/
def cache_explanation (s : QuestionPreloader) (word level : String) (e : Explanation) :
    QuestionPreloader :=
  { s with explanation_cache := cache_explanation_map s.explanation_cache word level e }

/-- The dictionary returned by get_explanation_for_word_id on a hit. -/
structure WordExplanationInfo where
  definition_en : String
  definition_zh : String
  word : String
  level : String
deriving DecidableEq

/-- get_explanation_for_word_id: linear scan over all live session queues
for a question with the given word_id. -/
def get_explanation_for_word_id (s : QuestionPreloader) (word_id : Nat) :
    Option WordExplanationInfo :=
  s.question_queues.findSome? fun p =>
    p.2.findSome? fun q =>
      if q.word_id = word_id then
        some { definition_en := q.explanation_en, definition_zh := q.explanation_zh,
               word := q.word_txt, level := q.level }
      else none

/-- Append on a Python deque with maxlen: a full deque silently discards
its leftmost (oldest) entry; a deque with maxlen 0 stays empty. -/
def deque_append (maxlen : Nat) (queue : List PreloadedQuestion) (q : PreloadedQuestion) :
    List PreloadedQuestion :=
  if maxlen = 0 then queue
  else if queue.length < maxlen then queue ++ [q]
  else queue.tail ++ [q]

/-- The queue append performed by the preload worker
(self.question_queues[session_id].append(question)); a no-op when the
session was stopped concurrently (the KeyError is swallowed by the
worker's try block). -/
def worker_append_question (s : QuestionPreloader) (session_id : Nat) (q : PreloadedQuestion) :
    QuestionPreloader :=
  match dictFind session_id s.question_queues with
  | none => s
  | some queue =>
    { s with question_queues :=
        dictInsert session_id (deque_append s.queue_size queue q) s.question_queues }

/-- One observable state transition of the preloader subsystem: a manager
call or one effectful step of a worker thread. -/
inductive ManagerOp where
  | start (session_id : Nat)
  | stop (session_id : Nat)
  | fetch (session_id : Nat) (now : Int)
  | append (session_id : Nat) (q : PreloadedQuestion)
  | cacheIns (word level : String) (e : Explanation)

def applyOp (s : QuestionPreloader) : ManagerOp → QuestionPreloader
  | .start sid => start_session_preloader s sid
  | .stop sid => stop_session_preloader s sid
  | .fetch sid now => (get_next_question s sid now).2
  | .append sid q => worker_append_question s sid q
  | .cacheIns w l e => cache_explanation s w l e

def runOps (s : QuestionPreloader) (ops : List ManagerOp) : QuestionPreloader :=
  ops.foldl applyOp s

/-- Length of the queue registered for a session (0 when unknown). -/
def queueLen (s : QuestionPreloader) (session_id : Nat) : Nat :=
  ((dictFind session_id s.question_queues).getD []).length

/-! ### Word selection (the SQL query of _get_next_word_for_session) -/

/-- A row of the words table. -/
structure WordRow where
  id : Nat
  word : String
  level : String
deriving DecidableEq

/-- A row of the user_words table (in_wrongbook and next_review nullable). -/
structure UserWordRow where
  user_id : Nat
  word_id : Nat
  next_review : Option Int
  srs_interval : Nat
  correct_count : Nat
  in_wrongbook : Option Nat
deriving DecidableEq

/-- The tables the next-word query touches.  question_attempts records
(session_id, word_id) pairs already asked, as read by the fallback path
in app.py; the preloader query never reads it. -/
structure Database where
  sessions : List Nat
  words : List WordRow
  user_words : List UserWordRow
  question_attempts : List (Nat × Nat)
deriving DecidableEq

/-- LEFT JOIN user_words uw ON w.id = uw.word_id AND uw.user_id = user_id,
with the (user_id, word_id) unique constraint making the match unique. -/
def joinedRow (db : Database) (user_id : Nat) (w : WordRow) : WordRow × Option UserWordRow :=
  (w, db.user_words.find? fun uw => uw.word_id = w.id && uw.user_id = user_id)

/-- WHERE (uw.in_wrongbook = 1 OR uw.in_wrongbook IS NULL)
AND (uw.next_review IS NULL OR uw.next_review <= CURRENT_TIMESTAMP);
columns of a missing joined row are NULL. -/
def eligibleRow (now : Int) (p : WordRow × Option UserWordRow) : Bool :=
  (match p.2 with
   | none => true
   | some uw => uw.in_wrongbook = some 1 || uw.in_wrongbook = none) &&
  (match p.2 with
   | none => true
   | some uw =>
     match uw.next_review with
     | none => true
     | some t => decide (t ≤ now))

/-- ORDER BY CASE WHEN uw.next_review IS NULL THEN 0 ELSE 1 END,
uw.next_review ASC.  Rows with NULL next_review all share the key (0, 0);
the trailing RANDOM() tie-break is modelled by quantifying over the row
order of the database. -/
def orderKey (p : WordRow × Option UserWordRow) : Nat × Int :=
  match p.2 with
  | none => (0, 0)
  | some uw =>
    match uw.next_review with
    | none => (0, 0)
    | some t => (1, t)

/-- Strict lexicographic comparison of order keys. -/
def keyLt (a b : Nat × Int) : Bool :=
  decide (a.1 < b.1) || (decide (a.1 = b.1) && decide (a.2 < b.2))

/-- One step of the minimum scan over the ordered rows. -/
def selectStep (acc : Option (WordRow × Option UserWordRow))
    (r : WordRow × Option UserWordRow) : Option (WordRow × Option UserWordRow) :=
  match acc with
  | none => some r
  | some b => if keyLt (orderKey r) (orderKey b) then some r else acc

/-- LIMIT 1 on the ordered rows: the first row carrying a minimal key. -/
def selectFirstMin (rows : List (WordRow × Option UserWordRow)) :
    Option (WordRow × Option UserWordRow) :=
  rows.foldl selectStep none

/-- The candidate rows of the query, in database row order. -/
def candidateRows (db : Database) (user_id : Nat) (now : Int) :
    List (WordRow × Option UserWordRow) :=
  (db.words.map (joinedRow db user_id)).filter (eligibleRow now)

/-- _get_next_word_for_session: None when the session row is missing,
otherwise the first row of the filtered, ordered join. -/
def get_next_word_for_session (db : Database) (session_id user_id : Nat) (now : Int) :
    Option (WordRow × Option UserWordRow) :=
  if session_id ∈ db.sessions then selectFirstMin (candidateRows db user_id now)
  else none

/-- A candidate row that is a due spaced-repetition review item: it has a
user_words row flagged in_wrongbook whose next_review is set and due. -/
def isDueReviewRow (now : Int) (p : WordRow × Option UserWordRow) : Bool :=
  match p.2 with
  | none => false
  | some uw =>
    uw.in_wrongbook = some 1 &&
    match uw.next_review with
    | none => false
    | some t => decide (t ≤ now)

/-- A candidate row with no recorded review time: either an unseen word
(no user_words row) or one whose next_review is NULL.  These are exactly
the rows ordered before every due review item by the query. -/
def neverReviewedRow (p : WordRow × Option UserWordRow) : Bool :=
  match p.2 with
  | none => true
  | some uw => uw.next_review.isNone

/-! ### Question assembly (_generate_question, lines 246 to 264) -/

/-- The fixed generic filler pair appended while fewer than 4 choices exist. -/
def filler_pair : Pair :=
  { en := "A general concept or idea", zh := "一般概念或想法" }

/-- The correct bilingual definition pair. -/
def correct_pair (e : Explanation) : Pair :=
  { en := e.definition_en, zh := e.definition_zh }

/-- The distractor pairs taken from the explanation:
for i in range(min(3, len(distractors_en), len(distractors_zh))). -/
def distractor_pairs (e : Explanation) : List Pair :=
  (List.range (min 3 (min e.distractors_en.length e.distractors_zh.length))).map
    fun i => { en := e.distractors_en.getD i "", zh := e.distractors_zh.getD i "" }

/-- The choices list before random.shuffle: the correct pair, the
distractor pairs, then filler pairs while the length is below 4. -/
def build_choices (e : Explanation) : List Pair :=
  let cs := correct_pair e :: distractor_pairs e
  cs ++ List.replicate (4 - cs.length) filler_pair

/-! ### Fallback sentence (_generate_sentence_with_word) -/

/-- The five sentence templates instantiated with the word. -/
def sentence_templates (word : String) : List String :=
  ["The " ++ word ++ " is very important.",
   "I think the " ++ word ++ " is interesting.",
   "We can see the " ++ word ++ " here.",
   "This " ++ word ++ " is quite useful.",
   "The " ++ word ++ " appears frequently."]

/-- random.choice(templates): the pick depends on the state of the global
random generator, modelled as the index it yields (taken modulo 5). -/
def generate_sentence_with_word (word : String) (rng : Nat) : String :=
  (sentence_templates word).getD (rng % 5) ""

/-! ### Stated invariants -/

/-- Every value stored in the queue registry respects the capacity. -/
def queuesBounded (s : QuestionPreloader) : Prop :=
  ∀ p ∈ s.question_queues, p.2.length ≤ s.queue_size

/-- The four per-session registries hold exactly the same session ids. -/
def registriesAligned (s : QuestionPreloader) : Prop :=
  ∀ sid : Nat,
    (sid ∈ s.question_queues.map Prod.fst ↔ sid ∈ s.session_locks) ∧
    (sid ∈ s.question_queues.map Prod.fst ↔ sid ∈ s.preload_threads.map Prod.fst) ∧
    (sid ∈ s.question_queues.map Prod.fst ↔ sid ∈ s.stop_events.map Prod.fst)

/-- Registry well-formedness maintained by every operation: dictionary
keys are duplicate-free and the four registries are aligned. -/
def goodState (s : QuestionPreloader) : Prop :=
  (s.question_queues.map Prod.fst).Nodup ∧
  (s.preload_threads.map Prod.fst).Nodup ∧
  (s.stop_events.map Prod.fst).Nodup ∧
  s.session_locks.Nodup ∧
  registriesAligned s

/-! ### Cache insertion sequences -/

/-- The derived cache keys of a sequence of cache_explanation calls. -/
def cacheKeysOf (inputs : List (String × String × Explanation)) : List (String × String) :=
  inputs.map fun t => cache_key t.1 t.2.1

/-- Run a sequence of cache_explanation calls on an initially empty cache. -/
def run_cache_insertions (inputs : List (String × String × Explanation)) :
    List ((String × String) × Explanation) :=
  inputs.foldl (fun c t => cache_explanation_map c t.1 t.2.1 t.2.2) []

/-! ### Concrete states and inputs used by witnesses and counterexamples -/

def sampleQuestion : PreloadedQuestion :=
  { word_id := 10, word_txt := "apple", level := "k12",
    sentence := "I like the apple.",
    choices_i18n :=
      [{ en := "A round red or green fruit that grows on trees",
         zh := "一种生长在树上的红色或绿色圆形水果" },
       { en := "Something completely unrelated to this word", zh := "与这个词完全无关的东西" },
       { en := "A different concept that is not correct", zh := "不正确的不同概念" },
       { en := "An incorrect meaning for this term", zh := "这个词的错误含义" }],
    correct_answer_i18n :=
      { en := "A round red or green fruit that grows on trees",
        zh := "一种生长在树上的红色或绿色圆形水果" },
    target_word := "apple",
    explanation_en := "A round red or green fruit that grows on trees",
    explanation_zh := "一种生长在树上的红色或绿色圆形水果",
    created_at := 100 }

/-- A manager state with one active session holding one queued question. -/
def sampleState : QuestionPreloader :=
  { initState 5 3 300 with
    question_queues := [(1, [sampleQuestion])],
    session_locks := [1],
    preload_threads := [(1, true)],
    stop_events := [(1, false)] }

def wordApple : WordRow := { id := 1, word := "apple", level := "k12" }

def wordBook : WordRow := { id := 2, word := "book", level := "k12" }

/-- Word 1 is a due wrongbook item already attempted in session 1. -/
def attemptedDb : Database :=
  { sessions := [1],
    words := [wordApple],
    user_words := [{ user_id := 7, word_id := 1, next_review := some 50,
                     srs_interval := 1, correct_count := 0, in_wrongbook := some 1 }],
    question_attempts := [(1, 1)] }

/-- Word 1 is unseen for user 7; word 2 is a due wrongbook review item. -/
def unseenVsDueDb : Database :=
  { sessions := [1],
    words := [wordApple, wordBook],
    user_words := [{ user_id := 7, word_id := 2, next_review := some 50,
                     srs_interval := 1, correct_count := 0, in_wrongbook := some 1 }],
    question_attempts := [] }

/-- An explanation whose single distractor pair equals its definition pair. -/
def dupExplanation : Explanation :=
  { definition_en := "x", definition_zh := "y",
    distractors_en := ["x"], distractors_zh := ["y"], examples := [] }

/-- An explanation providing one distractor pair distinct from its definition. -/
def oneDistractorExplanation : Explanation :=
  { definition_en := "a", definition_zh := "b",
    distractors_en := ["c"], distractors_zh := ["d"], examples := [] }

/-- Two cache insertions with distinct derived keys (distinct levels). -/
def cacheInputs : List (String × String × Explanation) :=
  [("apple", "k12", oneDistractorExplanation), ("apple", "b1", dupExplanation)]

/-! ### Lemmas about insertion-ordered dictionaries -/

section DictLemmas

variable {κ α : Type} [DecidableEq κ]

theorem mem_dictInsert {p : κ × α} {k : κ} {v : α} :
    ∀ {m : List (κ × α)}, p ∈ dictInsert k v m → p = (k, v) ∨ p ∈ m := by
  intro m
  induction m with
  | nil => simp [dictInsert]
  | cons hd tl ih =>
    obtain ⟨a, b⟩ := hd
    by_cases hk : a = k
    · subst hk
      simp only [dictInsert, if_true, eq_self_iff_true, List.mem_cons]
      tauto
    · simp only [dictInsert, if_neg hk, List.mem_cons]
      intro h
      rcases h with h | h
      · tauto
      · rcases ih h with h' | h'
        · tauto
        · tauto

theorem dictFind_dictInsert_self (k : κ) (v : α) :
    ∀ m : List (κ × α), dictFind k (dictInsert k v m) = some v := by
  intro m
  induction m with
  | nil => simp [dictInsert, dictFind]
  | cons hd tl ih =>
    obtain ⟨a, b⟩ := hd
    by_cases hk : a = k
    · subst hk
      simp [dictInsert, dictFind]
    · simp [dictInsert, hk, dictFind, ih]

theorem dictFind_dictInsert_ne {k' k : κ} (hne : k' ≠ k) (v : α) :
    ∀ m : List (κ × α), dictFind k' (dictInsert k v m) = dictFind k' m := by
  intro m
  have hne' : ¬ k = k' := fun h => hne h.symm
  induction m with
  | nil => simp [dictInsert, dictFind, hne']
  | cons hd tl ih =>
    obtain ⟨a, b⟩ := hd
    by_cases hk : a = k
    · subst hk
      simp [dictInsert, dictFind, hne']
    · by_cases hk' : a = k'
      · subst hk'
        simp [dictInsert, hk, dictFind, hne]
      · simp [dictInsert, hk, dictFind, hk', ih]

theorem dictFind_mem {k : κ} {v : α} :
    ∀ {m : List (κ × α)}, dictFind k m = some v → (k, v) ∈ m := by
  intro m
  induction m with
  | nil => simp [dictFind]
  | cons hd tl ih =>
    obtain ⟨a, b⟩ := hd
    by_cases hk : a = k
    · subst hk
      simp only [dictFind, eq_self_iff_true, if_true, Option.some.injEq, List.mem_cons]
      intro h
      subst h
      exact Or.inl rfl
    · simp only [dictFind, if_neg hk]
      intro h
      exact List.mem_cons_of_mem _ (ih h)

theorem dictFind_eq_none_of_not_mem {k : κ} :
    ∀ {m : List (κ × α)}, k ∉ m.map Prod.fst → dictFind k m = none := by
  intro m
  induction m with
  | nil => intro _; rfl
  | cons hd tl ih =>
    obtain ⟨a, b⟩ := hd
    intro h
    simp only [List.map_cons, List.mem_cons] at h
    push_neg at h
    have ha : ¬ a = k := fun hk => h.1 hk.symm
    simp only [dictFind, if_neg ha]
    exact ih h.2

theorem dictFind_isSome_iff {k : κ} :
    ∀ {m : List (κ × α)}, (dictFind k m).isSome ↔ k ∈ m.map Prod.fst := by
  intro m
  induction m with
  | nil => simp [dictFind]
  | cons hd tl ih =>
    obtain ⟨a, b⟩ := hd
    by_cases hk : a = k
    · subst hk
      simp [dictFind]
    · have ha : ¬ k = a := fun h => hk h.symm
      simp only [dictFind, if_neg hk, List.map_cons, List.mem_cons, ih]
      simp [ha]

theorem dictErase_sublist (k : κ) :
    ∀ m : List (κ × α), List.Sublist (dictErase k m) m := by
  intro m
  induction m with
  | nil => simp [dictErase]
  | cons hd tl ih =>
    obtain ⟨a, b⟩ := hd
    by_cases hk : a = k
    · simp only [dictErase, if_pos hk]
      exact List.sublist_cons_self (a, b) tl
    · simp only [dictErase, if_neg hk]
      exact List.Sublist.cons₂ (a, b) ih

theorem mem_dictErase {p : κ × α} {k : κ} {m : List (κ × α)}
    (h : p ∈ dictErase k m) : p ∈ m :=
  (dictErase_sublist k m).subset h

theorem dictFind_dictErase_self {k : κ} :
    ∀ {m : List (κ × α)}, (m.map Prod.fst).Nodup → dictFind k (dictErase k m) = none := by
  intro m
  induction m with
  | nil => intro _; rfl
  | cons hd tl ih =>
    obtain ⟨a, b⟩ := hd
    intro hnd
    simp only [List.map_cons, List.nodup_cons] at hnd
    by_cases hk : a = k
    · simp only [dictErase, if_pos hk]
      exact dictFind_eq_none_of_not_mem (hk ▸ hnd.1)
    · simp only [dictErase, if_neg hk, dictFind, if_neg hk]
      exact ih hnd.2

theorem dictFind_dictErase_ne {k' k : κ} (hne : k' ≠ k) :
    ∀ m : List (κ × α), dictFind k' (dictErase k m) = dictFind k' m := by
  intro m
  induction m with
  | nil => rfl
  | cons hd tl ih =>
    obtain ⟨a, b⟩ := hd
    by_cases hk : a = k
    · subst hk
      have ha : ¬ a = k' := fun h => hne h.symm
      simp [dictErase, dictFind, ha]
    · by_cases hk' : a = k'
      · subst hk'
        simp [dictErase, hk, dictFind, hne]
      · simp [dictErase, hk, dictFind, hk', ih]

theorem keys_dictInsert_of_mem {k : κ} (v : α) :
    ∀ {m : List (κ × α)}, k ∈ m.map Prod.fst →
      (dictInsert k v m).map Prod.fst = m.map Prod.fst := by
  intro m
  induction m with
  | nil => simp
  | cons hd tl ih =>
    obtain ⟨a, b⟩ := hd
    intro h
    by_cases hk : a = k
    · subst hk
      simp [dictInsert]
    · simp only [List.map_cons, List.mem_cons] at h
      rcases h with h | h
      · exact absurd h.symm hk
      · simp [dictInsert, hk, ih h]

theorem dictInsert_of_not_mem {k : κ} (v : α) :
    ∀ {m : List (κ × α)}, k ∉ m.map Prod.fst → dictInsert k v m = m ++ [(k, v)] := by
  intro m
  induction m with
  | nil => simp [dictInsert]
  | cons hd tl ih =>
    obtain ⟨a, b⟩ := hd
    intro h
    simp only [List.map_cons, List.mem_cons] at h
    push_neg at h
    have ha : ¬ a = k := fun hk => h.1 hk.symm
    simp [dictInsert, ha, ih h.2]

theorem keys_dictInsert_of_not_mem {k : κ} (v : α) {m : List (κ × α)}
    (h : k ∉ m.map Prod.fst) :
    (dictInsert k v m).map Prod.fst = m.map Prod.fst ++ [k] := by
  simp [dictInsert_of_not_mem v h]

theorem keys_dictErase (k : κ) :
    ∀ m : List (κ × α), (dictErase k m).map Prod.fst = (m.map Prod.fst).erase k := by
  intro m
  induction m with
  | nil => rfl
  | cons hd tl ih =>
    obtain ⟨a, b⟩ := hd
    by_cases hk : a = k
    · subst hk
      simp [dictErase, List.erase_cons]
    · simp [dictErase, hk, List.erase_cons, ih]

end DictLemmas

/-! ### General list facts -/

theorem length_dropWhile_le_local {α : Type} (p : α → Bool) :
    ∀ l : List α, (l.dropWhile p).length ≤ l.length := by
  intro l
  induction l with
  | nil => simp
  | cons a t ih =>
    simp only [List.dropWhile_cons]
    split
    · simp
      omega
    · simp

/-! ### Queue capacity invariant -/

theorem deque_append_length {cap : Nat} {queue : List PreloadedQuestion}
    (h : queue.length ≤ cap) (q : PreloadedQuestion) :
    (deque_append cap queue q).length ≤ cap := by
  unfold deque_append
  split
  · exact h
  · split
    · simp
      omega
    · simp [List.length_tail]
      omega

theorem applyOp_queue_size (s : QuestionPreloader) (op : ManagerOp) :
    (applyOp s op).queue_size = s.queue_size := by
  cases op with
  | start sid =>
    simp only [applyOp, start_session_preloader]
    split <;> rfl
  | stop sid =>
    simp only [applyOp, stop_session_preloader]
    split <;> rfl
  | fetch sid now =>
    rcases hfind : dictFind sid s.question_queues with _ | queue
    · simp only [applyOp, get_next_question, hfind]
    · rcases hdrop : queue.dropWhile (question_is_expired s.question_ttl now) with _ | ⟨q, rest⟩
      · simp only [applyOp, get_next_question, hfind, hdrop]
      · simp only [applyOp, get_next_question, hfind, hdrop]
  | append sid q =>
    simp only [applyOp, worker_append_question]
    rcases hfind : dictFind sid s.question_queues with _ | queue
    · rfl
    · rfl
  | cacheIns w l e => rfl

theorem queuesBounded_applyOp {s : QuestionPreloader} (hs : queuesBounded s)
    (op : ManagerOp) : queuesBounded (applyOp s op) := by
  cases op with
  | start sid =>
    simp only [applyOp, start_session_preloader]
    split
    · exact hs
    · intro p hp
      rcases mem_dictInsert hp with h | h
      · subst h
        simp
      · exact hs p h
  | stop sid =>
    simp only [applyOp, stop_session_preloader]
    split
    · exact hs
    · intro p hp
      exact hs p (mem_dictErase hp)
  | fetch sid now =>
    rcases hfind : dictFind sid s.question_queues with _ | queue
    · simpa only [applyOp, get_next_question, hfind] using hs
    · have hqlen : queue.length ≤ s.queue_size := hs _ (dictFind_mem hfind)
      rcases hdrop : queue.dropWhile (question_is_expired s.question_ttl now) with _ | ⟨q, rest⟩
      · simp only [applyOp, get_next_question, hfind, hdrop]
        intro p hp
        rcases mem_dictInsert hp with h | h
        · subst h
          simp
        · exact hs p h
      · simp only [applyOp, get_next_question, hfind, hdrop]
        intro p hp
        rcases mem_dictInsert hp with h | h
        · subst h
          have hlen := length_dropWhile_le_local (question_is_expired s.question_ttl now) queue
          rw [hdrop] at hlen
          simp only [List.length_cons] at hlen
          simp only
          omega
        · exact hs p h
  | append sid q =>
    simp only [applyOp, worker_append_question]
    rcases hfind : dictFind sid s.question_queues with _ | queue
    · exact hs
    · have hqlen : queue.length ≤ s.queue_size := hs _ (dictFind_mem hfind)
      intro p hp
      rcases mem_dictInsert hp with h | h
      · subst h
        exact deque_append_length hqlen q
      · exact hs p h
  | cacheIns w l e => exact hs

theorem queue_size_runOps (ops : List ManagerOp) :
    ∀ s : QuestionPreloader, (runOps s ops).queue_size = s.queue_size := by
  induction ops with
  | nil => intro s; rfl
  | cons op rest ih =>
    intro s
    show (runOps (applyOp s op) rest).queue_size = s.queue_size
    rw [ih, applyOp_queue_size]

theorem queuesBounded_runOps (ops : List ManagerOp) :
    ∀ s : QuestionPreloader, queuesBounded s → queuesBounded (runOps s ops) := by
  induction ops with
  | nil => intro s hs; exact hs
  | cons op rest ih =>
    intro s hs
    exact ih _ (queuesBounded_applyOp hs op)

theorem queueLen_le_of_bounded {s : QuestionPreloader} (hs : queuesBounded s)
    (sid : Nat) : queueLen s sid ≤ s.queue_size := by
  unfold queueLen
  rcases hfind : dictFind sid s.question_queues with _ | queue
  · simp
  · simpa using hs _ (dictFind_mem hfind)

/-! ### Registry alignment invariant -/

theorem goodState_applyOp {s : QuestionPreloader} (hs : goodState s) (op : ManagerOp) :
    goodState (applyOp s op) := by
  obtain ⟨h1, h2, h3, h4, h5⟩ := hs
  cases op with
  | start sid =>
    by_cases ht : (dictFind sid s.preload_threads).isSome = true
    · simp only [applyOp, start_session_preloader, if_pos ht]
      exact ⟨h1, h2, h3, h4, h5⟩
    · simp only [applyOp, start_session_preloader, if_neg ht]
      have hsidpt : sid ∉ s.preload_threads.map Prod.fst := by
        rw [← dictFind_isSome_iff]
        simpa using ht
      have hsidqq : sid ∉ s.question_queues.map Prod.fst :=
        fun hmem => hsidpt ((h5 sid).2.1.mp hmem)
      have hsidse : sid ∉ s.stop_events.map Prod.fst :=
        fun hmem => hsidqq ((h5 sid).2.2.mpr hmem)
      have hsidsl : sid ∉ s.session_locks :=
        fun hmem => hsidqq ((h5 sid).1.mpr hmem)
      refine ⟨?_, ?_, ?_, ?_, ?_⟩
      · rw [keys_dictInsert_of_not_mem _ hsidqq]
        simp [List.nodup_append, h1, hsidqq]
      · rw [keys_dictInsert_of_not_mem _ hsidpt]
        simp [List.nodup_append, h2, hsidpt]
      · rw [keys_dictInsert_of_not_mem _ hsidse]
        simp [List.nodup_append, h3, hsidse]
      · simp [List.nodup_append, h4, hsidsl]
      · intro t
        obtain ⟨a1, a2, a3⟩ := h5 t
        rw [keys_dictInsert_of_not_mem _ hsidqq, keys_dictInsert_of_not_mem _ hsidpt,
          keys_dictInsert_of_not_mem _ hsidse]
        simp only [List.mem_append, List.mem_singleton]
        exact ⟨by rw [a1], by rw [a2], by rw [a3]⟩
  | stop sid =>
    by_cases ht : (dictFind sid s.preload_threads).isNone = true
    · simp only [applyOp, stop_session_preloader, if_pos ht]
      exact ⟨h1, h2, h3, h4, h5⟩
    · simp only [applyOp, stop_session_preloader, if_neg ht]
      refine ⟨?_, ?_, ?_, h4.erase sid, ?_⟩
      · rw [keys_dictErase]
        exact h1.erase sid
      · rw [keys_dictErase]
        exact h2.erase sid
      · rw [keys_dictErase]
        exact h3.erase sid
      · intro t
        obtain ⟨a1, a2, a3⟩ := h5 t
        rw [keys_dictErase, keys_dictErase, keys_dictErase]
        by_cases htid : t = sid
        · subst htid
          simp [h1.mem_erase_iff, h2.mem_erase_iff, h3.mem_erase_iff, h4.mem_erase_iff]
        · rw [List.mem_erase_of_ne htid, List.mem_erase_of_ne htid,
            List.mem_erase_of_ne htid, List.mem_erase_of_ne htid]
          exact ⟨a1, a2, a3⟩
  | fetch sid now =>
    rcases hfind : dictFind sid s.question_queues with _ | queue
    · simpa only [applyOp, get_next_question, hfind] using ⟨h1, h2, h3, h4, h5⟩
    · have hmem : sid ∈ s.question_queues.map Prod.fst := by
        rw [← dictFind_isSome_iff, hfind]
        rfl
      rcases hdrop : queue.dropWhile (question_is_expired s.question_ttl now) with _ | ⟨q, rest⟩
      · simp only [applyOp, get_next_question, hfind, hdrop]
        refine ⟨?_, h2, h3, h4, ?_⟩
        · rw [keys_dictInsert_of_mem _ hmem]
          exact h1
        · intro t
          rw [keys_dictInsert_of_mem _ hmem]
          exact h5 t
      · simp only [applyOp, get_next_question, hfind, hdrop]
        refine ⟨?_, h2, h3, h4, ?_⟩
        · rw [keys_dictInsert_of_mem _ hmem]
          exact h1
        · intro t
          rw [keys_dictInsert_of_mem _ hmem]
          exact h5 t
  | append sid q =>
    rcases hfind : dictFind sid s.question_queues with _ | queue
    · simpa only [applyOp, worker_append_question, hfind] using ⟨h1, h2, h3, h4, h5⟩
    · have hmem : sid ∈ s.question_queues.map Prod.fst := by
        rw [← dictFind_isSome_iff, hfind]
        rfl
      simp only [applyOp, worker_append_question, hfind]
      refine ⟨?_, h2, h3, h4, ?_⟩
      · rw [keys_dictInsert_of_mem _ hmem]
        exact h1
      · intro t
        rw [keys_dictInsert_of_mem _ hmem]
        exact h5 t
  | cacheIns w l e => exact ⟨h1, h2, h3, h4, h5⟩

theorem goodState_runOps (ops : List ManagerOp) :
    ∀ s : QuestionPreloader, goodState s → goodState (runOps s ops) := by
  induction ops with
  | nil => intro s hs; exact hs
  | cons op rest ih =>
    intro s hs
    exact ih _ (goodState_applyOp hs op)

theorem goodState_initState (cap ahead : Nat) (ttl : Int) :
    goodState (initState cap ahead ttl) := by
  refine ⟨?_, ?_, ?_, ?_, ?_⟩ <;> simp [initState, registriesAligned]

/-! ### Head of the dropWhile scan -/

theorem dropWhile_head_not {α : Type} (p : α → Bool) :
    ∀ {l : List α} {q : α} {rest : List α}, l.dropWhile p = q :: rest → p q = false := by
  intro l
  induction l with
  | nil =>
    intro q rest h
    cases h
  | cons a t ih =>
    intro q rest h
    by_cases hpa : p a = true
    · rw [List.dropWhile_cons, if_pos hpa] at h
      exact ih h
    · rw [List.dropWhile_cons, if_neg hpa] at h
      cases h
      simpa using hpa

theorem dropWhile_expired_head_oldest (ttl now : Int) :
    ∀ {l : List PreloadedQuestion} {q : PreloadedQuestion} {rest : List PreloadedQuestion},
      List.Pairwise (fun a b => a.created_at ≤ b.created_at) l →
      l.dropWhile (question_is_expired ttl now) = q :: rest →
      ∀ r ∈ l, now - r.created_at ≤ ttl → q.created_at ≤ r.created_at := by
  intro l
  induction l with
  | nil =>
    intro q rest _ h
    cases h
  | cons a t ih =>
    intro q rest hp h r hr hfresh
    obtain ⟨ha, hp'⟩ := List.pairwise_cons.mp hp
    by_cases hpa : question_is_expired ttl now a = true
    · rw [List.dropWhile_cons, if_pos hpa] at h
      rcases List.mem_cons.mp hr with rfl | hr'
      · exfalso
        unfold question_is_expired at hpa
        simp only [decide_eq_true_eq] at hpa
        omega
      · exact ih hp' h r hr' hfresh
    · rw [List.dropWhile_cons, if_neg hpa] at h
      cases h
      rcases List.mem_cons.mp hr with rfl | hr'
      · exact le_refl _
      · exact ha r hr'

/-! ### Properties of the minimum scan -/

theorem keyLt_irrefl : ∀ a : Nat × Int, keyLt a a = false := by
  rintro ⟨a1, a2⟩
  simp [keyLt]

theorem keyLt_trans : ∀ a b c : Nat × Int,
    keyLt a b = true → keyLt b c = true → keyLt a c = true := by
  rintro ⟨a1, a2⟩ ⟨b1, b2⟩ ⟨c1, c2⟩ h1 h2
  simp only [keyLt, Bool.or_eq_true, Bool.and_eq_true, decide_eq_true_eq] at h1 h2 ⊢
  omega

theorem keyLt_of_ge_of_lt : ∀ a b c : Nat × Int,
    keyLt a b = false → keyLt a c = true → keyLt b c = true := by
  rintro ⟨a1, a2⟩ ⟨b1, b2⟩ ⟨c1, c2⟩ h1 h2
  have h1' : ¬ (keyLt (a1, a2) (b1, b2) = true) := by simp [h1]
  simp only [keyLt, Bool.or_eq_true, Bool.and_eq_true, decide_eq_true_eq] at h1' h2 ⊢
  omega

theorem selectFold_some :
    ∀ (rows : List (WordRow × Option UserWordRow)) (b : WordRow × Option UserWordRow),
      ∃ m, rows.foldl selectStep (some b) = some m := by
  intro rows
  induction rows with
  | nil =>
    intro b
    exact ⟨b, rfl⟩
  | cons r rows ih =>
    intro b
    rw [List.foldl_cons]
    by_cases hrb : keyLt (orderKey r) (orderKey b) = true
    · rw [show selectStep (some b) r = some r from by simp [selectStep, hrb]]
      exact ih r
    · have hrb' : keyLt (orderKey r) (orderKey b) = false := Bool.eq_false_iff.mpr hrb
      rw [show selectStep (some b) r = some b from by simp [selectStep, hrb']]
      exact ih b

theorem selectFold_not_lt :
    ∀ (rows : List (WordRow × Option UserWordRow)) (b m : WordRow × Option UserWordRow),
      rows.foldl selectStep (some b) = some m →
      (∀ r ∈ rows, keyLt (orderKey r) (orderKey m) = false) ∧
      keyLt (orderKey b) (orderKey m) = false := by
  intro rows
  induction rows with
  | nil =>
    intro b m h
    simp only [List.foldl_nil, Option.some.injEq] at h
    subst h
    exact ⟨by simp, keyLt_irrefl _⟩
  | cons r rows ih =>
    intro b m h
    rw [List.foldl_cons] at h
    by_cases hrb : keyLt (orderKey r) (orderKey b) = true
    · rw [show selectStep (some b) r = some r from by simp [selectStep, hrb]] at h
      obtain ⟨hall, hrm⟩ := ih r m h
      refine ⟨?_, ?_⟩
      · intro x hx
        rcases List.mem_cons.mp hx with rfl | hx'
        · exact hrm
        · exact hall x hx'
      · by_contra hbm
        rw [Bool.not_eq_false] at hbm
        have htr := keyLt_trans _ _ _ hrb hbm
        rw [hrm] at htr
        cases htr
    · have hrb' : keyLt (orderKey r) (orderKey b) = false := by
        rwa [Bool.not_eq_true] at hrb
      rw [show selectStep (some b) r = some b from by simp [selectStep, hrb']] at h
      obtain ⟨hall, hbm⟩ := ih b m h
      refine ⟨?_, hbm⟩
      intro x hx
      rcases List.mem_cons.mp hx with rfl | hx'
      · by_contra hxm
        rw [Bool.not_eq_false] at hxm
        have := keyLt_of_ge_of_lt _ _ _ hrb' hxm
        rw [hbm] at this
        cases this
      · exact hall x hx'

theorem neverReviewed_iff_key_zero (p : WordRow × Option UserWordRow) :
    neverReviewedRow p = true ↔ (orderKey p).1 = 0 := by
  rcases p with ⟨w, _ | uw⟩
  · simp [neverReviewedRow, orderKey]
  · rcases huw : uw.next_review with _ | t
    · simp [neverReviewedRow, orderKey, huw]
    · simp [neverReviewedRow, orderKey, huw]

/-! ### Cache eviction characterization -/

theorem tail_append_of_ne_nil {α : Type} {l : List α} (l2 : List α) (h : l ≠ []) :
    (l ++ l2).tail = l.tail ++ l2 := by
  cases l with
  | nil => exact absurd rfl h
  | cons a t => rfl

theorem run_cache_insertions_append (inputs : List (String × String × Explanation))
    (t : String × String × Explanation) :
    run_cache_insertions (inputs ++ [t]) =
      cache_explanation_map (run_cache_insertions inputs) t.1 t.2.1 t.2.2 := by
  unfold run_cache_insertions
  rw [List.foldl_append]
  rfl

theorem cache_keys_characterization :
    ∀ inputs : List (String × String × Explanation), (cacheKeysOf inputs).Nodup →
      (run_cache_insertions inputs).map Prod.fst =
        (cacheKeysOf inputs).drop (inputs.length - 1000) := by
  intro inputs
  induction inputs using List.reverseRecOn with
  | nil => intro _; rfl
  | append_singleton xs x ih =>
    intro hnd
    have hkeys : cacheKeysOf (xs ++ [x]) = cacheKeysOf xs ++ [cache_key x.1 x.2.1] := by
      simp [cacheKeysOf]
    rw [hkeys] at hnd
    rw [List.nodup_append] at hnd
    have hnd1 : (cacheKeysOf xs).Nodup := hnd.1
    have hfresh : cache_key x.1 x.2.1 ∉ cacheKeysOf xs :=
      fun hmem => hnd.2.2 hmem (List.mem_singleton.mpr rfl)
    have hc := ih hnd1
    have hkeyslen : (cacheKeysOf xs).length = xs.length := by
      simp [cacheKeysOf]
    have hclen : (run_cache_insertions xs).length = xs.length - (xs.length - 1000) := by
      have hlen := congrArg List.length hc
      rw [List.length_map, List.length_drop, hkeyslen] at hlen
      exact hlen
    have hkc : cache_key x.1 x.2.1 ∉ (run_cache_insertions xs).map Prod.fst := by
      rw [hc]
      intro hmem
      exact hfresh (List.drop_subset _ _ hmem)
    rw [run_cache_insertions_append, hkeys]
    unfold cache_explanation_map
    rw [dictInsert_of_not_mem _ hkc]
    by_cases hbig : 1000 ≤ xs.length
    · have hlen1001 : 1000 < ((run_cache_insertions xs) ++ [(cache_key x.1 x.2.1, x.2.2)]).length := by
        rw [List.length_append, hclen, List.length_singleton]
        omega
      rw [if_pos hlen1001]
      have hne : run_cache_insertions xs ≠ [] := by
        intro hnil
        rw [hnil] at hclen
        simp at hclen
        omega
      rw [tail_append_of_ne_nil _ hne, List.map_append, List.map_tail,
        hc, List.tail_drop]
      have hidx : xs.length - 1000 + 1 = (xs ++ [x]).length - 1000 := by
        simp
        omega
      rw [hidx]
      rw [List.drop_append_of_le_length (by simp; omega)]
      simp
    · have hlenle : ¬ 1000 < ((run_cache_insertions xs) ++ [(cache_key x.1 x.2.1, x.2.2)]).length := by
        rw [List.length_append, hclen, List.length_singleton]
        omega
      rw [if_neg hlenle]
      rw [List.map_append, hc]
      have h0 : xs.length - 1000 = 0 := by omega
      have h0' : (xs ++ [x]).length - 1000 = 0 := by
        simp
        omega
      rw [h0, h0', List.drop_zero, List.drop_zero]
      simp

/-! ### Claim C1 -/

/-- Claim C1: when the queue entries are in nondecreasing created_at
order, get_next_question first discards the stale prefix (entries whose
age exceeds the TTL) and the question it returns, if any, is the head of
the remaining queue: its age is at most the TTL and it is the oldest
entry among those whose age is at most the TTL. -/
theorem get_next_question_ttl (s : QuestionPreloader) (sid : Nat) (now : Int)
    (queue : List PreloadedQuestion) (q : PreloadedQuestion)
    (hfind : dictFind sid s.question_queues = some queue)
    (hsorted : List.Pairwise (fun a b => a.created_at ≤ b.created_at) queue)
    (hq : (get_next_question s sid now).1 = some q) :
    now - q.created_at ≤ s.question_ttl ∧
    (∀ r ∈ queue, now - r.created_at ≤ s.question_ttl → q.created_at ≤ r.created_at) ∧
    (get_next_question s sid now).1 =
      (queue.dropWhile (question_is_expired s.question_ttl now)).head? := by
  rcases hdrop : queue.dropWhile (question_is_expired s.question_ttl now) with _ | ⟨q0, rest⟩
  · have hnone : (get_next_question s sid now).1 = none := by
      simp only [get_next_question, hfind, hdrop]
    rw [hnone] at hq
    cases hq
  · have h1 : (get_next_question s sid now).1 = some q0 := by
      simp only [get_next_question, hfind, hdrop]
    rw [h1] at hq
    injection hq with hq
    subst hq
    refine ⟨?_, ?_, ?_⟩
    · have hnot := dropWhile_head_not _ hdrop
      unfold question_is_expired at hnot
      simp only [decide_eq_false_iff_not] at hnot
      omega
    · exact dropWhile_expired_head_oldest s.question_ttl now hsorted hdrop
    · rw [h1]
      rfl

/-- Instantiation of the C1 theorem on a concrete one-question queue. -/
theorem get_next_question_ttl_witness :
    150 - sampleQuestion.created_at ≤ sampleState.question_ttl ∧
    (∀ r ∈ [sampleQuestion], 150 - r.created_at ≤ sampleState.question_ttl →
      sampleQuestion.created_at ≤ r.created_at) ∧
    (get_next_question sampleState 1 150).1 =
      ([sampleQuestion].dropWhile (question_is_expired sampleState.question_ttl 150)).head? :=
  get_next_question_ttl sampleState 1 150 [sampleQuestion] sampleQuestion rfl
    (by simp) rfl

/-! ### Claim C2 -/

/-- Claim C2: after any sequence of operations from a fresh manager state,
every session queue length stays at most the configured capacity, and an
append on a full deque silently discards the oldest entry instead of
growing the queue. -/
theorem queue_capacity_invariant :
    (∀ (cap ahead : Nat) (ttl : Int) (ops : List ManagerOp) (sid : Nat),
      queueLen (runOps (initState cap ahead ttl) ops) sid ≤ cap) ∧
    ∀ (cap : Nat) (queue : List PreloadedQuestion) (q : PreloadedQuestion),
      queue.length = cap → 0 < cap → deque_append cap queue q = queue.tail ++ [q] := by
  constructor
  · intro cap ahead ttl ops sid
    have hinit : queuesBounded (initState cap ahead ttl) := by
      intro p hp
      cases hp
    have hb := queuesBounded_runOps ops (initState cap ahead ttl) hinit
    have hle := queueLen_le_of_bounded hb sid
    rwa [queue_size_runOps] at hle
  · intro cap queue q hlen hpos
    unfold deque_append
    rw [if_neg (by omega), if_neg (by omega)]

/-- Instantiation of the C2 theorem: a start followed by an append stays
within capacity 5, and an append on a full one-slot deque evicts the head. -/
theorem queue_capacity_invariant_witness :
    queueLen (runOps (initState 5 3 300)
      [ManagerOp.start 1, ManagerOp.append 1 sampleQuestion]) 1 ≤ 5 ∧
    deque_append 1 [sampleQuestion] sampleQuestion =
      [sampleQuestion].tail ++ [sampleQuestion] :=
  ⟨queue_capacity_invariant.1 5 3 300 [ManagerOp.start 1, ManagerOp.append 1 sampleQuestion] 1,
   queue_capacity_invariant.2 1 [sampleQuestion] sampleQuestion rfl (by decide)⟩

/-! ### Claim C3 -/

/-- Claim C3 fails on the code: the next-word query never consults
question_attempts, so on attemptedDb it returns word 1 for session 1 even
though session 1 already attempted word 1 (the fallback path of app.py
filters asked_word_ids; the preloader query, despite its comment saying
same logic as the original app, does not). -/
theorem next_word_returns_attempted_word :
    get_next_word_for_session attemptedDb 1 7 100 =
      some (joinedRow attemptedDb 7 wordApple) ∧
    (1, wordApple.id) ∈ attemptedDb.question_attempts := by
  exact ⟨rfl, by decide⟩

/-! ### Claim C4 -/

/-- Claim C4 (counterexample): on unseenVsDueDb a due wrongbook review
item (word 2) is an eligible candidate, yet the query returns the unseen
word 1, because rows with NULL next_review sort before due reviews. -/
theorem due_review_item_not_preferred :
    eligibleRow 100 (joinedRow unseenVsDueDb 7 wordBook) = true ∧
    isDueReviewRow 100 (joinedRow unseenVsDueDb 7 wordBook) = true ∧
    wordBook ∈ unseenVsDueDb.words ∧
    get_next_word_for_session unseenVsDueDb 1 7 100 =
      some (joinedRow unseenVsDueDb 7 wordApple) ∧
    isDueReviewRow 100 (joinedRow unseenVsDueDb 7 wordApple) = false := by
  exact ⟨rfl, rfl, by decide, rfl, rfl⟩

/-- Claim C4 (amended): never-reviewed rows (NULL next_review) are
preferred: whenever an eligible never-reviewed candidate exists, the
query returns a never-reviewed row; a due review item can only be
returned when no never-reviewed candidate is eligible. -/
theorem unseen_preferred_over_due (db : Database) (sid uid : Nat) (now : Int)
    (hs : sid ∈ db.sessions) (p : WordRow × Option UserWordRow)
    (hp : p ∈ candidateRows db uid now) (hnp : neverReviewedRow p = true) :
    ∃ m, get_next_word_for_session db sid uid now = some m ∧
      neverReviewedRow m = true := by
  unfold get_next_word_for_session
  rw [if_pos hs]
  rcases hrows : candidateRows db uid now with _ | ⟨r0, rest⟩
  · rw [hrows] at hp
    cases hp
  · rw [hrows] at hp
    unfold selectFirstMin
    rw [List.foldl_cons]
    rw [show selectStep none r0 = some r0 from rfl]
    obtain ⟨m, hm⟩ := selectFold_some rest r0
    refine ⟨m, hm, ?_⟩
    obtain ⟨hall, hr0m⟩ := selectFold_not_lt rest r0 m hm
    have hpm : keyLt (orderKey p) (orderKey m) = false := by
      rcases List.mem_cons.mp hp with rfl | hp'
      · exact hr0m
      · exact hall p hp'
    rw [neverReviewed_iff_key_zero] at hnp ⊢
    have hpm' : ¬ (keyLt (orderKey p) (orderKey m) = true) := by simp [hpm]
    simp only [keyLt, Bool.or_eq_true, Bool.and_eq_true, decide_eq_true_eq] at hpm'
    omega

/-- Instantiation of the amended C4 theorem on unseenVsDueDb. -/
theorem unseen_preferred_over_due_witness :
    ∃ m, get_next_word_for_session unseenVsDueDb 1 7 100 = some m ∧
      neverReviewedRow m = true :=
  unseen_preferred_over_due unseenVsDueDb 1 7 100 (by decide)
    (joinedRow unseenVsDueDb 7 wordApple) (by decide) rfl

/-! ### Claim C5 -/

/-- Claim C5 (counterexample): when the explanation supplies a distractor
pair equal to the definition pair, the built choice list contains the
correct pair twice, so not exactly one choice matches correct_choice
(random.shuffle preserves multiplicities). -/
theorem build_choices_duplicate_correct :
    (build_choices dupExplanation).count (correct_pair dupExplanation) = 2 := by
  decide

/-- Claim C5 (amended): every permutation of the built choices has exactly
4 entries and contains the correct definition pair; the correct pair
occurs exactly once provided no supplied distractor pair equals it and it
differs from the generic filler pair; and the list before shuffling is
exactly the correct pair, the supplied distractor pairs, and then the
fixed filler pair in each of the 3 - k remaining slots (k supplied
distractor pairs), so every permutation carries at least 3 - k fillers. -/
theorem build_choices_spec (e : Explanation) (out : List Pair)
    (hperm : List.Perm (build_choices e) out) :
    out.length = 4 ∧
    correct_pair e ∈ out ∧
    (correct_pair e ∉ distractor_pairs e → correct_pair e ≠ filler_pair →
      out.count (correct_pair e) = 1) ∧
    build_choices e =
      (correct_pair e :: distractor_pairs e) ++
        List.replicate (3 - (distractor_pairs e).length) filler_pair ∧
    3 - (distractor_pairs e).length ≤ out.count filler_pair := by
  have hdlen : (distractor_pairs e).length ≤ 3 := by
    simp only [distractor_pairs, List.length_map, List.length_range]
    omega
  have hbc : build_choices e =
      (correct_pair e :: distractor_pairs e) ++
        List.replicate (4 - (correct_pair e :: distractor_pairs e).length) filler_pair := rfl
  have hrepl : 4 - (correct_pair e :: distractor_pairs e).length
      = 3 - (distractor_pairs e).length := by
    simp only [List.length_cons]
    omega
  have hlen4 : (build_choices e).length = 4 := by
    rw [hbc]
    simp only [List.length_append, List.length_cons, List.length_replicate]
    omega
  refine ⟨?_, ?_, ?_, ?_, ?_⟩
  · rw [← hperm.length_eq]
    exact hlen4
  · apply hperm.mem_iff.mp
    rw [hbc]
    exact List.mem_append_left _ (List.mem_cons_self _ _)
  · intro hnd hnf
    rw [← hperm.count_eq, hbc, List.count_append, List.count_cons_self,
      List.count_eq_zero.mpr hnd,
      List.count_eq_zero.mpr (fun hmem => hnf (List.eq_of_mem_replicate hmem))]
  · rw [hbc, hrepl]
  · rw [← hperm.count_eq, hbc, List.count_append, List.count_replicate_self]
    simp only [List.length_cons]
    omega

/-- Instantiation of the amended C5 theorem on a one-distractor payload. -/
theorem build_choices_spec_witness :
    (build_choices oneDistractorExplanation).length = 4 ∧
    correct_pair oneDistractorExplanation ∈ build_choices oneDistractorExplanation ∧
    (correct_pair oneDistractorExplanation ∉ distractor_pairs oneDistractorExplanation →
      correct_pair oneDistractorExplanation ≠ filler_pair →
      (build_choices oneDistractorExplanation).count
        (correct_pair oneDistractorExplanation) = 1) ∧
    build_choices oneDistractorExplanation =
      (correct_pair oneDistractorExplanation :: distractor_pairs oneDistractorExplanation) ++
        List.replicate (3 - (distractor_pairs oneDistractorExplanation).length) filler_pair ∧
    3 - (distractor_pairs oneDistractorExplanation).length ≤
      (build_choices oneDistractorExplanation).count filler_pair :=
  build_choices_spec oneDistractorExplanation (build_choices oneDistractorExplanation)
    (List.Perm.refl _)

/-! ### Claim C6 -/

/-- Claim C6: for any sequence of cache insertions with pairwise distinct
derived keys, starting from an empty cache, the surviving keys are
exactly the most recent min(n, 1000) inserted keys in insertion order
(each overflow evicts exactly the oldest entry), and the cache never
holds more than 1000 entries after an insertion. -/
theorem cache_fifo_eviction (inputs : List (String × String × Explanation))
    (hnd : (cacheKeysOf inputs).Nodup) :
    (run_cache_insertions inputs).map Prod.fst =
      (cacheKeysOf inputs).drop (inputs.length - 1000) ∧
    (run_cache_insertions inputs).length ≤ 1000 := by
  have h := cache_keys_characterization inputs hnd
  refine ⟨h, ?_⟩
  have hlen := congrArg List.length h
  rw [List.length_map, List.length_drop] at hlen
  have hkl : (cacheKeysOf inputs).length = inputs.length := by
    simp [cacheKeysOf]
  omega

/-- Instantiation of the C6 theorem on two distinct-key insertions. -/
theorem cache_fifo_eviction_witness :
    (run_cache_insertions cacheInputs).map Prod.fst =
      (cacheKeysOf cacheInputs).drop (cacheInputs.length - 1000) ∧
    (run_cache_insertions cacheInputs).length ≤ 1000 :=
  cache_fifo_eviction cacheInputs (by simp [cacheInputs, cacheKeysOf, cache_key])

/-! ### Claim C7 -/

/-- Claim C7: on a session id registered in neither the queue nor the
thread registry, get_next_question returns None and leaves the state
unchanged, stop_session_preloader is a no-op (also when repeated), and
get_queue_status returns the default snapshot; the per-word explanation
lookup returns None whenever no queue holds the word.  All operations
are total, so none of them can raise. -/
theorem unknown_session_noops (s : QuestionPreloader) (sid : Nat) (now : Int) (wid : Nat)
    (hq : dictFind sid s.question_queues = none)
    (ht : dictFind sid s.preload_threads = none) :
    get_next_question s sid now = (none, s) ∧
    stop_session_preloader s sid = s ∧
    stop_session_preloader (stop_session_preloader s sid) sid = s ∧
    get_queue_status s sid =
      { queue_size := 0, thread_alive := false, max_queue_size := none } ∧
    ((∀ p ∈ s.question_queues, ∀ q ∈ p.2, q.word_id ≠ wid) →
      get_explanation_for_word_id s wid = none) := by
  have hstop : stop_session_preloader s sid = s := by
    simp [stop_session_preloader, ht]
  refine ⟨?_, hstop, ?_, ?_, ?_⟩
  · simp only [get_next_question, hq]
  · rw [hstop, hstop]
  · simp only [get_queue_status, hq]
  · intro hall
    unfold get_explanation_for_word_id
    rw [List.findSome?_eq_none_iff]
    intro p hp
    rw [List.findSome?_eq_none_iff]
    intro x hx
    rw [if_neg (hall p hp x hx)]

/-- Instantiation of the C7 theorem on the fresh manager state. -/
theorem unknown_session_noops_witness :
    get_next_question (initState 5 3 300) 2 0 = (none, initState 5 3 300) ∧
    stop_session_preloader (initState 5 3 300) 2 = initState 5 3 300 ∧
    stop_session_preloader (stop_session_preloader (initState 5 3 300) 2) 2 =
      initState 5 3 300 ∧
    get_queue_status (initState 5 3 300) 2 =
      { queue_size := 0, thread_alive := false, max_queue_size := none } ∧
    ((∀ p ∈ (initState 5 3 300).question_queues, ∀ q ∈ p.2, q.word_id ≠ 10) →
      get_explanation_for_word_id (initState 5 3 300) 10 = none) :=
  unknown_session_noops (initState 5 3 300) 2 0 10 rfl rfl

/-! ### Claim C8 -/

/-- Claim C8 (counterexample): for an unknown session id the snapshot
returned by get_queue_status carries no capacity field at all (the source
dict has no max_queue_size key on that branch), so not all three fields
are present with zeroed defaults. -/
theorem queue_status_unknown_lacks_capacity :
    (get_queue_status (initState 5 3 300) 1).max_queue_size = none := rfl

/-- Claim C8 (amended): get_queue_status is a read-only snapshot; for a
registered session it reports the current queue length, the thread-alive
flag and the configured capacity, while for an unknown session it reports
queue_size 0 and thread_alive false and omits the capacity field. -/
theorem get_queue_status_snapshot (s : QuestionPreloader) (sid : Nat) :
    ((get_queue_status s sid).max_queue_size.isSome ↔
      (dictFind sid s.question_queues).isSome) ∧
    (get_queue_status s sid).queue_size = queueLen s sid ∧
    (∀ queue, dictFind sid s.question_queues = some queue →
      get_queue_status s sid =
        { queue_size := queue.length,
          thread_alive := (dictFind sid s.preload_threads).getD false,
          max_queue_size := some s.queue_size }) ∧
    (dictFind sid s.question_queues = none →
      get_queue_status s sid =
        { queue_size := 0, thread_alive := false, max_queue_size := none }) := by
  rcases hfind : dictFind sid s.question_queues with _ | queue
  · refine ⟨?_, ?_, ?_, ?_⟩
    · simp [get_queue_status, hfind]
    · simp [get_queue_status, queueLen, hfind]
    · intro queue h
      exact Option.noConfusion h
    · intro _
      simp only [get_queue_status, hfind]
  · refine ⟨?_, ?_, ?_, ?_⟩
    · simp [get_queue_status, hfind]
    · simp [get_queue_status, queueLen, hfind]
    · intro queue2 h
      injection h with h
      subst h
      simp only [get_queue_status, hfind]
    · intro h
      exact Option.noConfusion h

/-- Instantiation of the amended C8 theorem on a registered session. -/
theorem get_queue_status_snapshot_witness :
    get_queue_status sampleState 1 =
      { queue_size := [sampleQuestion].length,
        thread_alive := (dictFind 1 sampleState.preload_threads).getD false,
        max_queue_size := some sampleState.queue_size } :=
  (get_queue_status_snapshot sampleState 1).2.2.1 [sampleQuestion] rfl

/-! ### Claim C9 -/

/-- Claim C9 (counterexample): the fallback sentence is not a function of
the word alone: two calls for the same word under different states of the
global random generator yield different sentences, so the synthesis is
not deterministic per word (no hash-of-word seeding exists in the code). -/
theorem fallback_sentence_rng_dependent :
    generate_sentence_with_word "apple" 0 ≠ generate_sentence_with_word "apple" 1 := by
  decide

/-- Claim C9 (amended): the fallback sentence is always one of the five
fixed templates instantiated with the word; which one is returned depends
on the global random generator state, not on the word alone. -/
theorem fallback_sentence_from_templates (word : String) (rng : Nat) :
    generate_sentence_with_word word rng ∈ sentence_templates word ∧
    (sentence_templates word).length = 5 := by
  constructor
  · unfold generate_sentence_with_word
    have h5 : rng % 5 < (sentence_templates word).length := Nat.mod_lt rng (by omega)
    rw [List.getD_eq_getElem _ _ h5]
    exact List.getElem_mem h5
  · rfl

/-! ### Claim C10 -/

/-- Claim C10: after any sequence of completed start, stop, fetch, append
and cache operations from the initial state, the four per-session
registries (queues, locks, worker threads, stop events) hold exactly the
same session ids. -/
theorem registries_stay_aligned (cap ahead : Nat) (ttl : Int) (ops : List ManagerOp) :
    registriesAligned (runOps (initState cap ahead ttl) ops) :=
  (goodState_runOps ops (initState cap ahead ttl) (goodState_initState cap ahead ttl)).2.2.2.2

end LexiBoost
